import Mathlib

/-!
Verification of the Wisp interpreter core against its specification.

Shallow embedding of the relevant C sources:
  src/ggc.c, src/ggc.h      - generational copying collector
  src/lexer.c, src/lexer.h  - lexer and token accessor
  src/parser.c              - cons-cell parser (parse_list, parse_sexpr)
  src/symtab.c, src/symtab.h- hash-bucket symbol table
  src/svm.c, src/svm.h      - evaluator driver and arithmetic builtins
  src/main.c                - CLI driver

Machine integers are modelled as Nat / Int with explicit reduction
modulo powers of two where the C code can overflow.
-/

namespace Wisp

/- ================================================================
   Generational GC: object headers and the minor-collection copy step
   (src/ggc.h lines 109-116, src/ggc.c gc_minor_collect lines 237-333)
   ================================================================ -/

/-- GC object header, translated from struct GCInfo (ggc.h lines 109-116).
Addresses are modelled as Nat; the forwarding pointer is `none` when the
object has not been forwarded (NULL in C). -/
structure GCInfo where
  gen : Nat
  age : Nat
  obj_size : Nat
  forwarding_ptr : Option Nat
  deriving DecidableEq, Repr

/-- Header of a freshly bump-allocated object: gc_alloc_nursery
(ggc.c lines 444-447) stores gen = 0, age = 0 and obj_size = total.  It
never writes the forwarding-pointer field, and its memset covers only
total = align16(size_body) bytes from the header, so that field keeps
whatever the underlying memory held; it is therefore a parameter here. -/
def fresh_header (total : Nat) (fwd : Option Nat) : GCInfo :=
  { gen := 0, age := 0, obj_size := total, forwarding_ptr := fwd }

/-- Promotion threshold installed by gc_init (ggc.c line 121). -/
def gc_init_promotion_age_threshold : Nat := 3

/-- Where the minor collection placed a live object, and the header written
at the new location. -/
inductive CopyOutcome where
  | toSurvivor (h : GCInfo)
  | toOld (h : GCInfo)
  | skipped
  deriving DecidableEq, Repr

/-- One worklist entry of gc_minor_collect (ggc.c lines 237-333):
`uint8_t new_age = header->age + 1` (line 243) computes the incremented age
into an 8-bit local, so it is the increment reduced modulo 256; if
new_age < promotion_age_threshold the object is copied into the to-space
survivor when it fits, with the copied header's age set to new_age
(lines 245-258); otherwise it is promoted into the old generation when that
fits, with gen set to 1 and age reset to 0 (lines 307-313); if old is full
the object falls back to the to-space survivor keeping new_age
(lines 278-289); if nothing fits the entry is skipped (lines 248-251,
282-285).  `to_space_fits` / `old_gen_fits` abstract the respective
bump-pointer bound checks. -/
def minor_copy_object (promotion_age_threshold : Nat)
    (to_space_fits old_gen_fits : Bool) (h : GCInfo) : CopyOutcome :=
  let new_age := (h.age + 1) % 256
  if new_age < promotion_age_threshold then
    if to_space_fits then .toSurvivor { h with age := new_age } else .skipped
  else
    if old_gen_fits then .toOld { h with gen := 1, age := 0 }
    else if to_space_fits then .toSurvivor { h with age := new_age }
    else .skipped

/- ================================================================
   Heap regions and the region-level effect of a minor collection
   (src/ggc.h lines 26-62, src/ggc.c lines 176-377)
   ================================================================ -/

/-- A contiguous memory region (struct MemRegion, ggc.h lines 26-29),
start address plus byte size; the exclusive end is start + size. -/
structure MemRegion where
  start : Nat
  size : Nat
  deriving DecidableEq, Repr

def MemRegion.endAddr (r : MemRegion) : Nat := r.start + r.size

/-- The nursery (struct Nursery, ggc.h lines 35-42): Eden and the two
survivor spaces, the to-space flag, and the single bump pointer (Eden during
mutation). -/
structure Nursery where
  eden : MemRegion
  s0 : MemRegion
  s1 : MemRegion
  to_space_is_s0 : Bool
  bump_ptr : Nat
  deriving DecidableEq, Repr

/-- The old generation (struct OldGen, ggc.h lines 48-51). -/
structure OldGen where
  region : MemRegion
  bump_ptr : Nat
  deriving DecidableEq, Repr

structure HeapState where
  nursery : Nursery
  old_gen : OldGen
  deriving DecidableEq, Repr

/-- To-space selection of gc_minor_collect (ggc.c lines 184-190): when
to_space_is_s0 is set, s0 is the to-space and s1 the from-survivor. -/
def minor_to_space (n : Nursery) : MemRegion :=
  if n.to_space_is_s0 then n.s0 else n.s1

/-- From-survivor selection of gc_minor_collect (ggc.c lines 184-190). -/
def minor_from_survivor (n : Nursery) : MemRegion :=
  if n.to_space_is_s0 then n.s1 else n.s0

/-- Initial value of the collection's to-space write cursor
(ggc.c line 192: to_bump = to_space->start).  The Nursery keeps no
persistent per-survivor bump pointer; this is where the next byte written
into a survivor goes. -/
def minor_initial_to_bump (n : Nursery) : Nat := (minor_to_space n).start

/-- Region-level effect of gc_minor_collect (ggc.c lines 176-377) on the
heap-state fields.  The copy loop only advances the old generation's bump
pointer (promotions, line 310), abstracted by its final value
`old_bump_after`; Step 6 (lines 371-373) flips the to-space flag and resets
the nursery bump pointer to Eden's start. -/
def gc_minor_collect_regions (st : HeapState) (old_bump_after : Nat) : HeapState :=
  { nursery :=
      { st.nursery with
        to_space_is_s0 := ¬st.nursery.to_space_is_s0
        bump_ptr := st.nursery.eden.start }
    old_gen := { st.old_gen with bump_ptr := old_bump_after } }

/- ================================================================
   GC allocation, byte level (src/ggc.c gc_alloc_nursery lines 392-452)
   ================================================================ -/

def DEFAULT_ALIGN : Nat := 16

/-- sizeof(GCInfo) on the LP64 target: four 8-byte fields (ggc.h 109-116). -/
def sizeof_GCInfo : Nat := 32

/-- align_up_size (ggc.h lines 261-263); for a power of two this bit trick
rounds n up to the next multiple of a. -/
def align_up_size (n a : Nat) : Nat := (n + (a - 1)) / a * a

/-- memset(p, 0, len) on a byte memory modelled as Nat -> Nat. -/
def memset_zero (mem : Nat → Nat) (p len : Nat) : Nat → Nat :=
  fun i => if p ≤ i ∧ i < p + len then 0 else mem i

/-- The bytes written into [p, p+24) by the header stores of
gc_alloc_nursery (ggc.c lines 444-447): gen = 0 at offsets 0-7, age = 0 at
offsets 8-15, obj_size little-endian at offsets 16-23.  The forwarding_ptr
field (offsets 24-31) is not written by the allocator. -/
def header_store_byte (total off : Nat) : Nat :=
  if off < 16 then 0 else total / 256 ^ (off - 16) % 256

structure AllocResult where
  payload : Nat
  mem : Nat → Nat
  bump : Nat

/-- The Eden fast path of gc_alloc_nursery (ggc.c lines 392-452), reached
when the aligned request fits the remaining Eden space: total is the
size_body rounded up to DEFAULT_ALIGN (line 398, note: the header size is
not added), p is the aligned bump pointer (line 399), memset(p, 0, total)
zeroes total bytes starting at the header (lines 440-442), the header
fields are stored (lines 444-447), the bump pointer advances to p + total
(line 449) and p + sizeof(GCInfo) is returned as the payload pointer
(line 451).  Addresses are offsets with eden.start = 0; `none` covers the
collection/fallback paths not modelled here. -/
def gc_alloc_nursery_eden (mem : Nat → Nat) (bump eden_end size_body : Nat) :
    Option AllocResult :=
  if size_body = 0 then none
  else
    let total := align_up_size size_body DEFAULT_ALIGN
    let p := align_up_size bump DEFAULT_ALIGN
    let avail := eden_end - p
    if total > avail then none
    else
      let mem1 := memset_zero mem p total
      let mem2 := fun i =>
        if p ≤ i ∧ i < p + 24 then header_store_byte total (i - p) else mem1 i
      some ⟨p + sizeof_GCInfo, mem2, p + total⟩

/- ================================================================
   Tokens and vec_get_token (src/lexer.h, src/lexer.c lines 227-234)
   ================================================================ -/

/-- Token kinds.  TOKEN_LPAREN is the first enumerator of the C enum and
therefore has value 0; the remaining order is immaterial here. -/
inductive TokenType where
  | LPAREN
  | RPAREN
  | INTEGER
  | FLOAT
  | STRING
  | IDENTIFIER
  | QUOTE
  | COMMA
  | ERROR
  | BACKQUOTE
  | UNINTERNED_SYMBOL
  | IGNORE
  deriving DecidableEq, Repr

/-- A token (struct Token, lexer.h lines 36-40): kind, span length and span
bytes.  `value = none` models a NULL value pointer. -/
structure Token where
  type : TokenType
  value_len : Nat
  value : Option (List Char)
  deriving DecidableEq, Repr

/-- The all-zero Token produced by `Token error_token = { 0 }` in
vec_get_token (lexer.c lines 230-231): type 0 (= TOKEN_LPAREN),
value_len 0, value NULL. -/
def zero_token : Token := ⟨.LPAREN, 0, none⟩

/-- vec_get_token (lexer.c lines 227-234).  The vector is modelled as its
stored tokens; `none` models a NULL vector pointer.  Out-of-range access
(idx >= elem_num) and a NULL vector both return the all-zero token. -/
def vec_get_token (v : Option (List Token)) (idx : Nat) : Token :=
  match v with
  | none => zero_token
  | some ts => if h : idx < ts.length then ts.get ⟨idx, h⟩ else zero_token

/- ================================================================
   CLI driver and evaluator return codes
   (src/svm.h lines 34-41, src/svm.c evaluate_program lines 314-381,
    src/main.c lines 21-99)
   ================================================================ -/

def SVM_OK : Int := 0
def SVM_ERR_UNBOUND : Int := -3

/-- evaluate_program (svm.c lines 314-381).  `program = none` models a NULL
ProgramFlux (line 315, returns -1); the four flags model the global arena,
global symbol table, builtin registration and VM creation steps
(lines 319-344, each returning -1 on failure).  The per-expression loop
(lines 346-375) calls svm_eval_expr and, when the result is nonzero, only
prints an ERROR line (line 373); the collected nonzero codes are returned
as the second component here to record what was printed.  The function then
returns 0 (line 380) regardless of any per-expression failure. -/
def evaluate_program_model (program : Option (List Int))
    (arena_ok symtab_ok builtins_ok vm_ok : Bool) : Int × List Int :=
  match program with
  | none => (-1, [])
  | some expr_results =>
    if ¬arena_ok then (-1, [])
    else if ¬symtab_ok then (-1, [])
    else if ¬builtins_ok then (-1, [])
    else if ¬vm_ok then (-1, [])
    else (0, expr_results.filter (fun r => r ≠ 0))

/-- main (main.c lines 21-99).  Each flag models the success of the
corresponding step: argument count (line 25), read_file (line 31),
lex_tokens (line 38), annotate_tokens (line 47), parse (line 57), the
evaluate_program setup flags, and the final vec_free (line 86).  After
evaluate_program returns, lines 81-83 print a diagnostic when its result is
nonzero but do not return; main then returns 0 (line 98) unless vec_free
failed (line 91). -/
def main_model (argc_ok file_ok lex_ok annotate_ok parse_ok
    arena_ok symtab_ok builtins_ok vm_ok vecfree_ok : Bool)
    (expr_results : List Int) : Int :=
  if ¬argc_ok then -1
  else if ¬file_ok then -1
  else if ¬lex_ok then -1
  else if ¬annotate_ok then -1
  else if ¬parse_ok then -1
  else
    let r := evaluate_program_model (some expr_results)
      arena_ok symtab_ok builtins_ok vm_ok
    if r.1 ≠ 0 then
      if ¬vecfree_ok then -1 else 0
    else
      if ¬vecfree_ok then -1 else 0

/- ================================================================
   Theorems: C1, C2, C3, C9, C10
   ================================================================ -/

/-- C1 counterexample: the survivor age is computed into a uint8_t
(ggc.c line 243) and wraps at 256.  A header of age 255 — reachable since
the old-generation-full fallback keeps incrementing the age and
gc_major_collect never frees the old generation — wraps to new_age = 0,
so the copy step takes the young branch: the object is copied to the
to-space survivor with age 0 even though both spaces fit, which is neither
a promotion (despite the age far exceeding the threshold) nor an
age increment by 1 (the stored age 0 differs from 255 + 1). -/
theorem C1_age_wrap_counterexample :
    minor_copy_object gc_init_promotion_age_threshold true true
        (⟨0, 255, 16, none⟩ : GCInfo) = .toSurvivor ⟨0, 0, 16, none⟩
    ∧ (0 : Nat) ≠ 255 + 1 :=
  ⟨rfl, by decide⟩

/-- C1 amended: with the default promotion_age_threshold of 3 installed by
gc_init, the minor-collection copy step computes new_age = (age + 1) % 256
(the uint8_t computation of ggc.c line 243) and copies to the to-space
survivor with age new_age when new_age is below the threshold, promotes
with gen = 1 and age reset to 0 when new_age reaches the threshold and the
old generation fits, and falls back to the survivor with age new_age when
it does not; the wrapped increment equals the plain increment by 1 for
every age below 255; and an unblocked fresh object survives exactly 2
collections in the nursery (ages 1 then 2) before the third promotes it. -/
theorem C1_promotion_age_threshold :
    gc_init_promotion_age_threshold = 3
    ∧ (∀ (h : GCInfo) (old_gen_fits : Bool),
        (h.age + 1) % 256 < gc_init_promotion_age_threshold →
        minor_copy_object gc_init_promotion_age_threshold true old_gen_fits h
          = .toSurvivor { h with age := (h.age + 1) % 256 })
    ∧ (∀ (h : GCInfo) (to_space_fits : Bool),
        gc_init_promotion_age_threshold ≤ (h.age + 1) % 256 →
        minor_copy_object gc_init_promotion_age_threshold to_space_fits true h
          = .toOld { h with gen := 1, age := 0 })
    ∧ (∀ (h : GCInfo),
        gc_init_promotion_age_threshold ≤ (h.age + 1) % 256 →
        minor_copy_object gc_init_promotion_age_threshold true false h
          = .toSurvivor { h with age := (h.age + 1) % 256 })
    ∧ (∀ (h : GCInfo), h.age < 255 → (h.age + 1) % 256 = h.age + 1)
    ∧ (∀ sz fwd,
        minor_copy_object 3 true true (fresh_header sz fwd)
            = .toSurvivor ⟨0, 1, sz, fwd⟩
        ∧ minor_copy_object 3 true true ⟨0, 1, sz, fwd⟩
            = .toSurvivor ⟨0, 2, sz, fwd⟩
        ∧ minor_copy_object 3 true true ⟨0, 2, sz, fwd⟩
            = .toOld ⟨1, 0, sz, fwd⟩) := by
  refine ⟨rfl, ?_, ?_, ?_, ?_, ?_⟩
  · intro h old_gen_fits hlt
    simp [minor_copy_object, hlt]
  · intro h to_space_fits hge
    simp [minor_copy_object, Nat.not_lt.mpr hge]
  · intro h hge
    simp [minor_copy_object, Nat.not_lt.mpr hge]
  · intro h hlt
    exact Nat.mod_eq_of_lt (by omega)
  · intro sz fwd
    refine ⟨?_, ?_, ?_⟩ <;> rfl

/-- Witness for C1 at concrete inputs: a header of age 0 is below the
threshold and is copied with age 1; a header of age 2 reaches the threshold
and is promoted with age 0 and old generation; below 255 the uint8_t
increment is the plain increment. -/
theorem C1_promotion_age_threshold_witness :
    minor_copy_object gc_init_promotion_age_threshold true false
        (⟨0, 0, 16, none⟩ : GCInfo) = .toSurvivor ⟨0, 1, 16, none⟩
    ∧ minor_copy_object gc_init_promotion_age_threshold false true
        (⟨0, 2, 16, none⟩ : GCInfo) = .toOld ⟨1, 0, 16, none⟩
    ∧ ((⟨0, 7, 16, none⟩ : GCInfo).age + 1) % 256 = 7 + 1 :=
  ⟨C1_promotion_age_threshold.2.1 ⟨0, 0, 16, none⟩ false (by decide),
   C1_promotion_age_threshold.2.2.1 ⟨0, 2, 16, none⟩ false (by decide),
   C1_promotion_age_threshold.2.2.2.2.1 ⟨0, 7, 16, none⟩ (by decide)⟩

/-- C2: after every run of gc_minor_collect, the nursery bump pointer
equals Eden's start (Step 6, ggc.c line 373), and the survivor that served
as from-space — having become the next to-space after the flag flip at
line 372 — has its write cursor (re)initialised to that survivor's start
address (line 192), i.e. its effective bump pointer equals its region
start.  The Nursery struct keeps no persistent per-survivor bump pointer
(ggc.h lines 35-42), so the latter is the from-survivor's only allocation
cursor. -/
theorem C2_minor_collection_resets_bump_pointers
    (st : HeapState) (old_bump_after : Nat) :
    (gc_minor_collect_regions st old_bump_after).nursery.bump_ptr
        = st.nursery.eden.start
    ∧ minor_to_space (gc_minor_collect_regions st old_bump_after).nursery
        = minor_from_survivor st.nursery
    ∧ minor_initial_to_bump (gc_minor_collect_regions st old_bump_after).nursery
        = (minor_from_survivor st.nursery).start := by
  refine ⟨rfl, ?_, ?_⟩ <;>
    cases hb : st.nursery.to_space_is_s0 <;>
      simp [gc_minor_collect_regions, minor_to_space, minor_from_survivor,
        minor_initial_to_bump, hb]

/-- C3 (code bug): an eval failure does not make the process exit nonzero.
With every setup step succeeding and a program whose single expression
fails with SVM_ERR_UNBOUND, evaluate_program prints the failure (nonzero
code collected) yet returns 0, and main returns 0. -/
theorem C3_eval_failure_exits_zero :
    evaluate_program_model (some [SVM_ERR_UNBOUND]) true true true true
        = (0, [SVM_ERR_UNBOUND])
    ∧ main_model true true true true true true true true true true
        [SVM_ERR_UNBOUND] = 0
    ∧ SVM_ERR_UNBOUND ≠ 0 := by
  refine ⟨rfl, rfl, by decide⟩

/-- C9: vec_get_token is total: a NULL vector or an index at or beyond the
stored count returns the all-zero token, whose type is TOKEN_LPAREN (enum
value 0), whose value is NULL and whose value_len is 0; an in-range index
returns the stored token unchanged. -/
theorem C9_vec_get_token_total :
    (∀ idx, vec_get_token none idx = zero_token)
    ∧ (∀ (ts : List Token) (idx : Nat), ts.length ≤ idx →
        vec_get_token (some ts) idx = zero_token)
    ∧ zero_token.type = .LPAREN
    ∧ zero_token.value_len = 0
    ∧ zero_token.value = none
    ∧ (∀ (ts : List Token) (idx : Nat) (h : idx < ts.length),
        vec_get_token (some ts) idx = ts.get ⟨idx, h⟩) := by
  refine ⟨fun _ => rfl, ?_, rfl, rfl, rfl, ?_⟩
  · intro ts idx hle
    simp [vec_get_token, Nat.not_lt.mpr hle]
  · intro ts idx h
    simp [vec_get_token, h]

/-- Witness for C9 at concrete inputs: index 5 into a one-token vector
yields the all-zero token, and index 0 yields the stored token. -/
theorem C9_vec_get_token_total_witness :
    vec_get_token (some [⟨.INTEGER, 1, some ['7']⟩]) 5 = zero_token
    ∧ vec_get_token (some [⟨.INTEGER, 1, some ['7']⟩]) 0
        = ⟨.INTEGER, 1, some ['7']⟩ :=
  ⟨C9_vec_get_token_total.2.1 [⟨.INTEGER, 1, some ['7']⟩] 5 (by decide),
   C9_vec_get_token_total.2.2.2.2.2 [⟨.INTEGER, 1, some ['7']⟩] 0 (by decide)⟩

/-- C10 (code bug): the nursery allocator does not zero the payload.  On a
fresh Eden (bump = 0) filled with the byte 255, requesting size_body = 16
succeeds and returns payload pointer 32 (= sizeof(GCInfo) past the header),
but memset covered only [0, 16) — align_up_size(16, 16) bytes starting at
the header, the header size never being added — so the first payload byte
still holds 255. -/
theorem C10_payload_not_zeroed :
    (gc_alloc_nursery_eden (fun _ => 255) 0 2097152 16).isSome = true
    ∧ (gc_alloc_nursery_eden (fun _ => 255) 0 2097152 16).map
        (fun r => (r.payload, r.mem r.payload)) = some (32, 255) := by
  refine ⟨rfl, rfl⟩

/- ================================================================
   Symbol table (src/symtab.h lines 262-278, src/symtab.c lines 18-39
   and 63-111)
   ================================================================ -/

def FNV_PRIME_32 : Nat := 16777619
def FNV_OFFSET_BASIS_32 : Nat := 2166136261

/-- symtab_hash (symtab.h lines 271-278): 32-bit FNV-1a over the name
bytes (names are byte lists; each byte is reduced mod 256 as by the
uint8_t cast). -/
def symtab_hash (name : List Nat) : Nat :=
  name.foldl (fun h b => (h ^^^ b % 256) * FNV_PRIME_32 % 2 ^ 32)
    FNV_OFFSET_BASIS_32

/-- A chained symbol (struct Symbol, symtab.h lines 88-98).  The type and
value are modelled as plain numbers; only the const flag matters to
control flow. -/
structure SymEntry where
  name : List Nat
  name_hash : Nat
  sym_type : Nat
  value : Nat
  flags_const : Bool
  deriving DecidableEq, Repr

/-- The hash table of one scope (struct SymTab, symtab.h lines 107-116),
without the parent/arena fields that symtab_define never touches.
`buckets` has length bucket_count, chain heads at the front. -/
structure SymTabM where
  bucket_count : Nat
  symbol_count : Nat
  buckets : List (List SymEntry)
  deriving DecidableEq, Repr

/-- symtab_new (symtab.c lines 18-39): a zero capacity is replaced by 16;
calloc leaves every bucket chain empty and symbol_count 0. -/
def symtab_new (initial_capacity : Nat) : SymTabM :=
  let cap := if initial_capacity = 0 then 16 else initial_capacity
  { bucket_count := cap, symbol_count := 0, buckets := List.replicate cap [] }

/-- The chain-walk of symtab_define (symtab.c lines 73-88): an entry
matches when its stored hash, name length and name bytes all agree.
Returns the updated chain, or `none` when the matching entry is const
(line 79, error -3), or the unchanged chain tagged false when no entry
matches. -/
def chain_define (hash : Nat) (name : List Nat) (ty v : Nat) :
    List SymEntry → Option (Bool × List SymEntry)
  | [] => some (false, [])
  | e :: rest =>
    if e.name_hash = hash ∧ e.name.length = name.length ∧ e.name = name then
      if e.flags_const then none
      else some (true, { e with sym_type := ty, value := v } :: rest)
    else
      match chain_define hash name ty v rest with
      | none => none
      | some (found, rest2) => some (found, e :: rest2)

/-- symtab_define (symtab.c lines 63-111): hash the name, walk the chain of
bucket hash % bucket_count; update an existing non-const binding in place
(count unchanged), fail with -3 on a const conflict, otherwise push a new
symbol at the head of the chain and increment symbol_count.  No code path
changes bucket_count or rehashes. -/
def symtab_define (st : SymTabM) (name : List Nat) (ty v : Nat)
    (is_const : Bool) : Except Int SymTabM :=
  if name = [] then .error (-2)
  else
    let hash := symtab_hash name
    let index := hash % st.bucket_count
    let chain := st.buckets.getD index []
    match chain_define hash name ty v chain with
    | none => .error (-3)
    | some (true, chain2) =>
        .ok { st with buckets := st.buckets.set index chain2 }
    | some (false, _) =>
        .ok { st with
          buckets := st.buckets.set index
            ({ name := name, name_hash := hash, sym_type := ty, value := v,
               flags_const := is_const } :: chain)
          symbol_count := st.symbol_count + 1 }

/-- C5 counterexample: defining the two distinct names "a" and "b" in a
one-bucket scope leaves symbol_count = 2 against bucket_count = 1, so the
load factor 2.0 exceeds 0.75 (4 * count > 3 * buckets) and the bucket
count was not doubled — no resize happened. -/
theorem C5_load_factor_counterexample :
    ∃ st2 : SymTabM,
      (symtab_define (symtab_new 1) [97] 1 0 false).bind
          (fun st1 => symtab_define st1 [98] 1 0 false) = .ok st2
      ∧ st2.symbol_count = 2
      ∧ st2.bucket_count = 1
      ∧ 4 * st2.symbol_count > 3 * st2.bucket_count := by
  refine ⟨_, rfl, rfl, rfl, by decide⟩

/-- C5 amended: symtab_define never resizes — every successful define
leaves bucket_count unchanged (there is no doubling at load factor 0.75,
and the invariant count / buckets <= 0.75 does not hold in general). -/
theorem C5_define_never_resizes (st : SymTabM) (name : List Nat)
    (ty v : Nat) (is_const : Bool) (st2 : SymTabM)
    (h : symtab_define st name ty v is_const = .ok st2) :
    st2.bucket_count = st.bucket_count := by
  by_cases hn : name = []
  · simp [symtab_define, hn] at h
  · simp only [symtab_define, if_neg hn] at h
    split at h
    · exact absurd h (by simp)
    · injection h with h2
      rw [← h2]
    · injection h with h2
      rw [← h2]

/-- Witness for C5 amended: a concrete successful define into a 16-bucket
scope keeps bucket_count = 16. -/
theorem C5_define_never_resizes_witness :
    ∃ st2 : SymTabM,
      symtab_define (symtab_new 16) [97] 1 0 false = .ok st2
      ∧ st2.bucket_count = (symtab_new 16).bucket_count :=
  ⟨_, rfl, C5_define_never_resizes (symtab_new 16) [97] 1 0 false _ rfl⟩

/- ================================================================
   Arithmetic builtins (src/svm.c bltn_add 385-452, bltn_sub 454-542,
   bltn_mul 544-612)
   ================================================================ -/

/-- A runtime value as seen by the arithmetic builtins: an integer
(SYM_INTEGER, a C long long), a float (SYM_FLOAT, a C double, abstracted
over the carrier F), or any other tag. -/
inductive Value (F : Type) where
  | int (v : Int)
  | float (x : F)
  | other
  deriving DecidableEq, Repr

/-- The IEEE double operations the builtins use, abstracted: conversion
from long long, addition, subtraction, multiplication, negation, and the
literals 0.0 and 1.0. -/
structure FloatOps (F : Type) where
  ofInt : Int → F
  add : F → F → F
  sub : F → F → F
  mul : F → F → F
  neg : F → F
  zero : F
  one : F

/-- Trivial instance used to evaluate integer-only runs. -/
def unitFloatOps : FloatOps Unit :=
  ⟨fun _ => (), fun _ _ => (), fun _ _ => (), fun _ _ => (), fun _ => (), (), ()⟩

def Value.isNumber {F : Type} : Value F → Bool
  | .int _ => true
  | .float _ => true
  | .other => false

def Value.isInt {F : Type} : Value F → Bool
  | .int _ => true
  | _ => false

def Value.intVal {F : Type} : Value F → Int
  | .int v => v
  | _ => 0

/-- Promotion of an operand to double ((double)arg->val.int_val in the
float folds). -/
def Value.floatVal {F : Type} (ops : FloatOps F) : Value F → F
  | .float x => x
  | .int v => ops.ofInt v
  | .other => ops.zero

/-- Two's-complement reduction of an Int into the signed 64-bit range,
modelling C long long arithmetic results. -/
def wrap64 (z : Int) : Int := (z + 2 ^ 63) % 2 ^ 64 - 2 ^ 63

/-- One C long long addition (result += ...). -/
def i64_add (a b : Int) : Int := wrap64 (a + b)

/-- One C long long subtraction (result -= ...). -/
def i64_sub (a b : Int) : Int := wrap64 (a - b)

/-- One C long long multiplication (result *= ...). -/
def i64_mul (a b : Int) : Int := wrap64 (a * b)

/-- One C long long negation (-val). -/
def i64_neg (a : Int) : Int := wrap64 (-a)

def SVM_ERR_TYPE : Int := -2

/-- The arithmetic of bltn_add (svm.c lines 415-451), applied to the
already-evaluated argument values: no arguments yields integer 0
(lines 415-419); any non-numeric argument is a type error (lines 421-429);
all-integer arguments fold long long addition from 0 (lines 430-437);
otherwise the double fold from 0.0 promotes integer operands
(lines 438-450). -/
def bltn_add_core {F : Type} (ops : FloatOps F) (args : List (Value F)) :
    Except Int (Value F) :=
  if args.length = 0 then .ok (.int 0)
  else if ¬args.all Value.isNumber then .error SVM_ERR_TYPE
  else if args.all Value.isInt then
    .ok (.int (args.foldl (fun acc a => i64_add acc a.intVal) 0))
  else
    .ok (.float (args.foldl (fun acc a => ops.add acc (a.floatVal ops)) ops.zero))

/-- The arithmetic of bltn_sub (svm.c lines 485-541): no arguments yields
integer 0 (lines 485-489); one argument is negated, preserving its
int/float kind (lines 490-503); with two or more arguments any non-numeric
one is a type error (lines 504-513), all-integer arguments fold long long
subtraction from the first value (lines 514-521), otherwise the double
fold starts from the promoted first value (lines 522-540). -/
def bltn_sub_core {F : Type} (ops : FloatOps F) (args : List (Value F)) :
    Except Int (Value F) :=
  match args with
  | [] => .ok (.int 0)
  | [a] =>
    match a with
    | .int v => .ok (.int (i64_neg v))
    | .float x => .ok (.float (ops.neg x))
    | .other => .error SVM_ERR_TYPE
  | a :: rest =>
    if ¬(a :: rest).all Value.isNumber then .error SVM_ERR_TYPE
    else if (a :: rest).all Value.isInt then
      .ok (.int (rest.foldl (fun acc b => i64_sub acc b.intVal) a.intVal))
    else
      .ok (.float (rest.foldl (fun acc b => ops.sub acc (b.floatVal ops))
        (a.floatVal ops)))

/-- The arithmetic of bltn_mul (svm.c lines 575-611): no arguments yields
integer 1 (lines 575-579); any non-numeric argument is a type error
(lines 580-589); all-integer arguments fold long long multiplication from
1 over every argument (lines 590-597); otherwise the double fold from 1.0
promotes integer operands (lines 598-610). -/
def bltn_mul_core {F : Type} (ops : FloatOps F) (args : List (Value F)) :
    Except Int (Value F) :=
  if args.length = 0 then .ok (.int 1)
  else if ¬args.all Value.isNumber then .error SVM_ERR_TYPE
  else if args.all Value.isInt then
    .ok (.int (args.foldl (fun acc a => i64_mul acc a.intVal) 1))
  else
    .ok (.float (args.foldl (fun acc a => ops.mul acc (a.floatVal ops)) ops.one))

/-- The stored integers of an argument list. -/
def intsOf {F : Type} (args : List (Value F)) : List Int :=
  args.map Value.intVal

theorem wrap64_emod (a : Int) : wrap64 a % 2 ^ 64 = a % 2 ^ 64 := by
  unfold wrap64
  omega

theorem wrap64_eq_of_emod_eq {a b : Int} (h : a % 2 ^ 64 = b % 2 ^ 64) :
    wrap64 a = wrap64 b := by
  unfold wrap64
  omega

theorem wrap64_wrap64_add (a b : Int) : wrap64 (wrap64 a + b) = wrap64 (a + b) := by
  refine wrap64_eq_of_emod_eq ?_
  conv_lhs => rw [Int.add_emod, wrap64_emod, ← Int.add_emod]

theorem wrap64_wrap64_sub (a b : Int) : wrap64 (wrap64 a - b) = wrap64 (a - b) := by
  refine wrap64_eq_of_emod_eq ?_
  conv_lhs => rw [Int.sub_emod, wrap64_emod, ← Int.sub_emod]

theorem wrap64_wrap64_mul (a b : Int) : wrap64 (wrap64 a * b) = wrap64 (a * b) := by
  refine wrap64_eq_of_emod_eq ?_
  conv_lhs => rw [Int.mul_emod, wrap64_emod, ← Int.mul_emod]

theorem wrap64_eq_self {z : Int} (h1 : -(2 ^ 63) ≤ z) (h2 : z < 2 ^ 63) :
    wrap64 z = z := by
  unfold wrap64
  omega

theorem foldl_i64_add (x : Int) (l : List Int) :
    l.foldl i64_add (wrap64 x) = wrap64 (x + l.sum) := by
  induction l generalizing x with
  | nil => simp
  | cons a t ih =>
    have h1 : i64_add (wrap64 x) a = wrap64 (x + a) := wrap64_wrap64_add x a
    calc (a :: t).foldl i64_add (wrap64 x) = t.foldl i64_add (wrap64 (x + a)) := by
          rw [List.foldl_cons, h1]
      _ = wrap64 (x + a + t.sum) := ih (x + a)
      _ = wrap64 (x + (a :: t).sum) := by rw [List.sum_cons]; ring_nf

theorem foldl_i64_sub (x : Int) (l : List Int) :
    l.foldl i64_sub (wrap64 x) = wrap64 (x - l.sum) := by
  induction l generalizing x with
  | nil => simp
  | cons a t ih =>
    have h1 : i64_sub (wrap64 x) a = wrap64 (x - a) := wrap64_wrap64_sub x a
    calc (a :: t).foldl i64_sub (wrap64 x) = t.foldl i64_sub (wrap64 (x - a)) := by
          rw [List.foldl_cons, h1]
      _ = wrap64 (x - a - t.sum) := ih (x - a)
      _ = wrap64 (x - (a :: t).sum) := by rw [List.sum_cons]; ring_nf

theorem foldl_i64_mul (x : Int) (l : List Int) :
    l.foldl i64_mul (wrap64 x) = wrap64 (x * l.prod) := by
  induction l generalizing x with
  | nil => simp
  | cons a t ih =>
    have h1 : i64_mul (wrap64 x) a = wrap64 (x * a) := wrap64_wrap64_mul x a
    calc (a :: t).foldl i64_mul (wrap64 x) = t.foldl i64_mul (wrap64 (x * a)) := by
          rw [List.foldl_cons, h1]
      _ = wrap64 (x * a * t.prod) := ih (x * a)
      _ = wrap64 (x * (a :: t).prod) := by rw [List.prod_cons]; ring_nf

theorem foldl_i64_sub_cons (x b : Int) (t : List Int) :
    (b :: t).foldl i64_sub x = wrap64 (x - (b :: t).sum) := by
  rw [List.foldl_cons]
  have h1 : i64_sub x b = wrap64 (x - b) := rfl
  rw [h1, foldl_i64_sub, List.sum_cons]
  ring_nf

theorem wrap64_zero : wrap64 0 = 0 := by decide

theorem wrap64_one : wrap64 1 = 1 := by decide

theorem foldl_intVal_eq {F : Type} (args : List (Value F)) (f : Int → Int → Int)
    (x : Int) :
    args.foldl (fun acc a => f acc a.intVal) x = (intsOf args).foldl f x := by
  rw [intsOf, List.foldl_map]

/-- C8 counterexample: adding the two integers 2^63 - 1 and 1 produces the
wrapped integer -2^63, not the exact sum 2^63. -/
theorem C8_add_overflow_counterexample :
    bltn_add_core unitFloatOps [.int (2 ^ 63 - 1), .int 1]
        = .ok (.int (-(2 ^ 63)))
    ∧ ((2 ^ 63 - 1 : Int) + 1 = 2 ^ 63)
    ∧ (-(2 ^ 63) : Int) ≠ 2 ^ 63 := by
  refine ⟨rfl, by decide, by decide⟩

theorem Value.isNumber_of_isInt {F : Type} {a : Value F} (h : a.isInt = true) :
    a.isNumber = true := by
  cases a <;> simp_all [Value.isInt, Value.isNumber]

theorem all_isNumber_of_all_isInt {F : Type} {args : List (Value F)}
    (h : args.all Value.isInt = true) : args.all Value.isNumber = true := by
  rw [List.all_eq_true] at h ⊢
  exact fun a ha => Value.isNumber_of_isInt (h a ha)

/-- C8 amended: on all-integer arguments +, - and * produce integer results
equal to the exact sum, left-fold difference and product reduced to the
signed 64-bit range by two's-complement wraparound (so equal to the exact
value whenever that value fits in long long, by the last conjunct); a
single integer argument of - negates with the same wraparound and a single
float argument of - yields its double negation; when the arguments are all
numeric and at least one is a float, + and * fold the double operation from
0.0 and 1.0 over the operands promoted to double, and - with two or more
arguments folds double subtraction from the promoted first operand. -/
theorem C8_arithmetic_amended {F : Type} (ops : FloatOps F)
    (args : List (Value F)) :
    (args.all Value.isInt = true →
      bltn_add_core ops args = .ok (.int (wrap64 (intsOf args).sum)))
    ∧ (args.all Value.isInt = true →
      bltn_mul_core ops args = .ok (.int (wrap64 (intsOf args).prod)))
    ∧ (∀ a rest, args = a :: rest → rest ≠ [] →
        args.all Value.isInt = true →
        bltn_sub_core ops args
          = .ok (.int (wrap64 (a.intVal - (intsOf rest).sum))))
    ∧ (∀ v : Int, bltn_sub_core ops [(.int v : Value F)]
        = .ok (.int (wrap64 (-v))))
    ∧ (args.all Value.isNumber = true →
        args.any (fun a => !a.isInt) = true →
        bltn_add_core ops args
            = .ok (.float (args.foldl
                (fun acc a => ops.add acc (a.floatVal ops)) ops.zero))
        ∧ bltn_mul_core ops args
            = .ok (.float (args.foldl
                (fun acc a => ops.mul acc (a.floatVal ops)) ops.one))
        ∧ (∀ a rest, args = a :: rest → rest ≠ [] →
            bltn_sub_core ops args
              = .ok (.float (rest.foldl
                  (fun acc b => ops.sub acc (b.floatVal ops))
                  (a.floatVal ops)))))
    ∧ (∀ x : F, bltn_sub_core ops [(.float x : Value F)]
        = .ok (.float (ops.neg x)))
    ∧ (∀ z : Int, -(2 ^ 63) ≤ z → z < 2 ^ 63 → wrap64 z = z) := by
  have hfalse : args.any (fun a => !a.isInt) = true →
      args.all Value.isInt = false := by
    intro hany
    rcases List.any_eq_true.mp hany with ⟨a, ha, hna⟩
    refine List.all_eq_false.mpr ⟨a, ha, by simpa using hna⟩
  refine ⟨?_, ?_, ?_, ?_, ?_, fun x => rfl,
    fun z h1 h2 => wrap64_eq_self h1 h2⟩
  · intro hall
    cases args with
    | nil => simp [bltn_add_core, intsOf, wrap64_zero]
    | cons a t =>
      have hnum := all_isNumber_of_all_isInt hall
      simp only [bltn_add_core]
      rw [if_neg (by simp), if_neg (by simp [hnum]), if_pos hall,
        foldl_intVal_eq, ← wrap64_zero, foldl_i64_add]
      norm_num
  · intro hall
    cases args with
    | nil => simp [bltn_mul_core, intsOf, wrap64_one]
    | cons a t =>
      have hnum := all_isNumber_of_all_isInt hall
      simp only [bltn_mul_core]
      rw [if_neg (by simp), if_neg (by simp [hnum]), if_pos hall,
        foldl_intVal_eq, ← wrap64_one, foldl_i64_mul]
      norm_num
  · intro a rest harg hne hall
    subst harg
    cases rest with
    | nil => exact absurd rfl hne
    | cons b t =>
      have hnum := all_isNumber_of_all_isInt hall
      simp only [bltn_sub_core]
      rw [if_neg (by simp [hnum]), if_pos hall, foldl_intVal_eq]
      have hc : intsOf (b :: t) = Value.intVal b :: intsOf t := rfl
      rw [hc, foldl_i64_sub_cons, ← hc]
  · intro v
    rfl
  · intro hnum hany
    have hnotint := hfalse hany
    have hne : args ≠ [] := by
      rintro rfl
      simp at hany
    have hlen : ¬args.length = 0 := by
      simpa [List.length_eq_zero] using hne
    refine ⟨?_, ?_, ?_⟩
    · simp [bltn_add_core, hlen, hnum, hnotint]
    · simp [bltn_mul_core, hlen, hnum, hnotint]
    · intro a rest harg hrne
      subst harg
      cases rest with
      | nil => exact (hrne rfl).elim
      | cons b t => simp [bltn_sub_core, hnum, hnotint]

/-- Witness for C8 amended at concrete inputs: (+ 2 3) on integers yields
integer 5; (+ 1 2.0) with a float present yields a float. -/
theorem C8_arithmetic_amended_witness :
    (bltn_add_core unitFloatOps [.int 2, .int 3]
        = .ok (.int (wrap64 (intsOf [Value.int (F := Unit) 2, .int 3]).sum))
      ∧ wrap64 (intsOf [Value.int (F := Unit) 2, .int 3]).sum = 5)
    ∧ bltn_add_core unitFloatOps [.int 1, .float ()]
        = .ok (.float ([Value.int (F := Unit) 1, .float ()].foldl
            (fun acc a => unitFloatOps.add acc (a.floatVal unitFloatOps))
            unitFloatOps.zero)) :=
  ⟨⟨(C8_arithmetic_amended unitFloatOps [.int 2, .int 3]).1 (by decide),
    by decide⟩,
   ((C8_arithmetic_amended unitFloatOps [.int 1, .float ()]).2.2.2.2.1
      (by decide) (by decide)).1⟩

/- ================================================================
   Parser list builder with bounded quote stack
   (src/parser.c parse_list lines 29-75)
   ================================================================ -/

/-- The three quote-family node kinds NODE_QUOTE, NODE_QUASIQUOTE,
NODE_UNQUOTE (a contiguous enum range, tested by
cur->type >= NODE_QUOTE && cur->type <= NODE_UNQUOTE at parser.c
line 42). -/
inductive QuoteKind where
  | quote
  | quasiquote
  | unquote
  deriving DecidableEq, Repr

/-- A node of the flat chain produced by the parser's first pass, as
consumed by parse_list: opening/closing separator, a quote-family marker,
or any other (atom) node whose payload A parse_list clones unchanged
(cons_clone_shallow, parser.c line 59). -/
inductive PNode (A : Type) where
  | openSep
  | closeSep
  | marker (q : QuoteKind)
  | atom (a : A)
  deriving DecidableEq, Repr

/-- A parsed expression: an atom, a NODE_LIST of children (wrap_list), or a
quote-family wrapper holding one inner expression (make_atom with a
quote-kind node type, parser.c line 66).  Modelled from the spec: the
ConsList helpers used by parse_list (cons_list_init, cons_list_push_back,
wrap_list, cons_clone_shallow) are declared outside src/; per the spec a
list is a singly-linked cons chain built by appending at the tail, so a
NODE_LIST is modelled as a Lean list and push_back as append. -/
inductive Expr (A : Type) where
  | atom (a : A)
  | list (elems : List (Expr A))
  | quoted (q : QuoteKind) (e : Expr A)

/-- MAX_CONSECUTIVE_QUOTES (parser.c line 14); the push at line 43 uses the
same literal 8 as its bound. -/
def MAX_CONSECUTIVE_QUOTES : Nat := 8

/-- The wrap loop of parse_list (parser.c lines 64-68): pop the pending
markers from the top of the stack, each wrapping the expression so that the
most recently pushed marker becomes the innermost wrapper.  The stack is a
list with its top at the head. -/
def wrap_pending {A : Type} (qs : List QuoteKind) (e : Expr A) : Expr A :=
  qs.foldl (fun acc q => .quoted q acc) e

/-- The loop body of parse_list (parser.c lines 41-71), with explicit fuel
(every call strictly decreases it; fuel = the input length is always
enough, each iteration consuming at least one node).  `body` is the
ConsList accumulated so far, `qs` the quote stack (top at head).
A marker is pushed only while the stack holds fewer than 8 entries
(line 43), otherwise it is dropped and the cursor advances regardless
(lines 46-47).  A closing separator returns the accumulated list, leaving
any pending markers behind (lines 55-57).  Running off the chain is the
unclosed-parenthesis error (lines 73-74, NULL result). -/
def parse_list_aux {A : Type} :
    Nat → List (PNode A) → List (Expr A) → List QuoteKind →
    Option (Expr A × List (PNode A))
  | 0, _, _, _ => none
  | _ + 1, [], _, _ => none
  | f + 1, n :: rest, body, qs =>
    match n with
    | .marker q =>
        parse_list_aux f rest body
          (if qs.length < MAX_CONSECUTIVE_QUOTES then q :: qs else qs)
    | .closeSep => some (.list body, rest)
    | .openSep =>
        match parse_list_aux f rest [] [] with
        | none => none
        | some (e, rest2) =>
            parse_list_aux f rest2 (body ++ [wrap_pending qs e]) []
    | .atom a => parse_list_aux f rest (body ++ [wrap_pending qs (.atom a)]) []

/-- parse_list (parser.c lines 29-75): requires the cursor to sit on an
opening separator (line 30) and parses its body from the next node. -/
def parse_list {A : Type} (cur : List (PNode A)) :
    Option (Expr A × List (PNode A)) :=
  match cur with
  | .openSep :: rest => parse_list_aux cur.length rest [] []
  | _ => none

/-- The effect of a run of consecutive markers on the quote stack
(parser.c lines 42-48 iterated). -/
def push_markers (ms : List QuoteKind) (qs : List QuoteKind) : List QuoteKind :=
  ms.foldl (fun s m => if s.length < MAX_CONSECUTIVE_QUOTES then m :: s else s) qs

theorem push_markers_cons (m : QuoteKind) (t qs : List QuoteKind) :
    push_markers (m :: t) qs
      = push_markers t
          (if qs.length < MAX_CONSECUTIVE_QUOTES then m :: qs else qs) := rfl

theorem parse_list_aux_markers {A : Type} (ms : List QuoteKind) (a : A)
    (body : List (Expr A)) (qs : List QuoteKind) (f : Nat)
    (hf : ms.length + 2 ≤ f) :
    parse_list_aux f (ms.map .marker ++ [.atom a, .closeSep]) body qs
      = some (.list (body ++ [wrap_pending (push_markers ms qs) (.atom a)]),
              []) := by
  induction ms generalizing qs f with
  | nil =>
    match f, hf with
    | k + 2, _ =>
      simp only [List.map_nil, List.nil_append, parse_list_aux, push_markers,
        List.foldl_nil]
  | cons m t ih =>
    match f, hf with
    | k + 1, hf =>
      rw [show ((m :: t).map (PNode.marker (A := A))
            ++ [PNode.atom a, PNode.closeSep])
          = PNode.marker m :: (t.map .marker ++ [.atom a, .closeSep])
        from rfl]
      rw [show parse_list_aux (k + 1)
            (PNode.marker m :: (t.map .marker ++ [.atom a, .closeSep]))
            body qs
          = parse_list_aux k (t.map .marker ++ [.atom a, .closeSep]) body
              (if qs.length < MAX_CONSECUTIVE_QUOTES then m :: qs else qs)
        from rfl]
      rw [ih _ k (by simp only [List.length_cons] at hf; omega),
        push_markers_cons]

theorem push_markers_nil (ms : List QuoteKind) (qs : List QuoteKind)
    (hqs : qs.length ≤ 8) :
    push_markers ms qs
      = ((ms.take (8 - qs.length)).reverse) ++ qs := by
  induction ms generalizing qs with
  | nil => simp [push_markers]
  | cons m t ih =>
    rw [push_markers_cons]
    by_cases h : qs.length < MAX_CONSECUTIVE_QUOTES
    · have h' : qs.length < 8 := h
      rw [if_pos h, ih (m :: qs) (by rw [List.length_cons]; omega)]
      have h8 : 8 - qs.length = (8 - (qs.length + 1)) + 1 := by omega
      rw [List.length_cons, h8]
      simp
    · have h' : ¬qs.length < 8 := h
      have h8 : qs.length = 8 := by omega
      rw [if_neg h, ih qs hqs, h8]
      simp

theorem wrap_pending_reverse {A : Type} (ms : List QuoteKind) (e : Expr A) :
    wrap_pending ms.reverse e = ms.foldr (fun q acc => .quoted q acc) e := by
  rw [wrap_pending, List.foldl_reverse]

/-- C4 counterexample: nine consecutive quote markers before the single
atom inside a list parse successfully — no ParseError — and the ninth
marker is silently discarded: only eight wrappers remain. -/
theorem C4_quote_overflow_counterexample :
    parse_list (.openSep ::
        (List.replicate 9 (PNode.marker (A := Unit) .quote)
          ++ [.atom (), .closeSep]))
      = some (.list [(List.replicate 8 QuoteKind.quote).foldr
          (fun q acc => .quoted q acc) (.atom ())], []) := by
  rfl

/-- C4 amended: parse_list never reports an error for long marker runs; a
run of k consecutive quote/backquote/comma markers before a single
expression succeeds, wrapping the expression with only the first
min(k, 8) markers — markers beyond the stack bound 8 are silently
discarded — innermost last (the last kept marker is the innermost
wrapper); in particular for k <= 8 all k markers wrap as the claim
states. -/
theorem C4_quote_stack_amended {A : Type} (ms : List QuoteKind) (a : A) :
    parse_list (.openSep :: (ms.map .marker ++ [.atom a, .closeSep]))
      = some (.list [(ms.take 8).foldr (fun q acc => .quoted q acc)
          (.atom a)], []) := by
  rw [show parse_list (.openSep :: (ms.map .marker ++ [.atom a, .closeSep]))
        = parse_list_aux
            ((ms.map (PNode.marker (A := A))
              ++ [PNode.atom a, PNode.closeSep]).length + 1)
            (ms.map .marker ++ [.atom a, .closeSep]) [] []
      from rfl]
  rw [parse_list_aux_markers ms a [] []
      ((ms.map (PNode.marker (A := A))
        ++ [PNode.atom a, PNode.closeSep]).length + 1) (by simp),
    push_markers_nil ms [] (by simp)]
  simp [wrap_pending_reverse]

/- ================================================================
   Character classification (C "C" locale, used by lexer.c and the
   numeric conversions of parser.c)
   ================================================================ -/

/-- isspace in the C locale: ' ' (32) and the control characters 9-13
(\t \n \v \f \r). -/
def c_isspace (c : Char) : Bool :=
  c.toNat = 32 || (9 ≤ c.toNat && c.toNat ≤ 13)

/-- isdigit: '0'..'9'. -/
def c_isdigit (c : Char) : Bool := 48 ≤ c.toNat && c.toNat ≤ 57

/-- isalpha: 'A'..'Z' or 'a'..'z'. -/
def c_isalpha (c : Char) : Bool :=
  (65 ≤ c.toNat && c.toNat ≤ 90) || (97 ≤ c.toNat && c.toNat ≤ 122)

/-- isalnum. -/
def c_isalnum (c : Char) : Bool := c_isalpha c || c_isdigit c

/- ================================================================
   Numeric token conversion (src/parser.c parse_sexpr lines 104-144)
   ================================================================ -/

def digit_val (c : Char) : Nat := c.toNat - 48

/-- Value of a nonempty digit string read in base 10. -/
def dec_value (ds : List Char) : Nat :=
  ds.foldl (fun a c => a * 10 + digit_val c) 0

def LLONG_MAX : Int := 2 ^ 63 - 1
def LLONG_MIN : Int := -(2 ^ 63)

/-- strtoll(buf, &endptr, 10) on a NUL-terminated buffer, combined with the
caller's error test (parser.c line 114): the result is `none` exactly when
errno == ERANGE (value outside the long long range), endptr == buf (no
digits), or *endptr != 0 (trailing bytes); otherwise the converted value.
strtoll itself skips leading whitespace and accepts one optional sign. -/
def strtoll_core (neg : Bool) (cs2 : List Char) : Option Int :=
  let digits := cs2.takeWhile c_isdigit
  let rest := cs2.dropWhile c_isdigit
  if digits = [] then none
  else if rest ≠ [] then none
  else
    let m : Int := dec_value digits
    let v : Int := if neg then -m else m
    if v < LLONG_MIN ∨ LLONG_MAX < v then none else some v

def strtoll_model (cs : List Char) : Option Int :=
  let cs1 := cs.dropWhile c_isspace
  strtoll_core (cs1.head? == some '-')
    (if cs1.head? == some '-' || cs1.head? == some '+' then cs1.tail else cs1)

inductive IntTokenNode where
  | int_node (v : Int)
  | sym_node (text : List Char)
  deriving DecidableEq, Repr

/-- The TOKEN_INTEGER case of parse_sexpr (parser.c lines 104-123): the
token text is copied into a 32-byte buffer, truncated to at most 31 bytes
(line 106), NUL-terminated and converted with strtoll base 10; on any
conversion failure the node is a SYMBOL carrying the full token text
(lines 114-119), otherwise an INT node with the converted value
(line 121). -/
def parse_integer_token (text : List Char) : IntTokenNode :=
  match strtoll_model (text.take 31) with
  | some v => .int_node v
  | none => .sym_node text

inductive FloatTokenNode (F : Type) where
  | float_node (x : F)
  | sym_node (text : List Char)
  deriving DecidableEq, Repr

/-- The TOKEN_FLOAT case of parse_sexpr (parser.c lines 125-144): the token
text is truncated to at most 63 bytes (line 127) and converted with
strtold; `strtold_ok` abstracts the conversion and its error test
(line 135), returning `none` exactly when errno == ERANGE, endptr == buf,
*endptr != 0, or the converted value is not finite; on `none` the node is
a SYMBOL carrying the full text, otherwise a FLOAT node. -/
def parse_float_token {F : Type} (strtold_ok : List Char → Option F)
    (text : List Char) : FloatTokenNode F :=
  match strtold_ok (text.take 63) with
  | some x => .float_node x
  | none => .sym_node text

/-- The mathematical value of a decimal token body [+|-]digit+.  Written
from the claim's words (the decimal body of the token), to compare against
what the code computes. -/
def token_decimal_value (text : List Char) : Option Int :=
  if text.head? = some '+' then
    if text.tail ≠ [] ∧ text.tail.all c_isdigit
    then some (dec_value text.tail) else none
  else if text.head? = some '-' then
    if text.tail ≠ [] ∧ text.tail.all c_isdigit
    then some (-(dec_value text.tail : Int)) else none
  else
    if text ≠ [] ∧ text.all c_isdigit then some (dec_value text) else none

/-- C7 counterexample: the 36-byte INTEGER token 00000000000000000000000000000000005
(35 zeros then 5) has decimal body value 5, well inside the signed 64-bit
range, yet the parser truncates the conversion buffer to 31 bytes (all
zeros) and produces the INT node 0, not 5 — the in-range token is not
parsed to its converted value. -/
theorem C7_truncation_counterexample :
    parse_integer_token (List.replicate 35 '0' ++ ['5']) = .int_node 0
    ∧ token_decimal_value (List.replicate 35 '0' ++ ['5']) = some 5
    ∧ LLONG_MIN ≤ 5 ∧ (5 : Int) ≤ LLONG_MAX
    ∧ IntTokenNode.int_node 0 ≠ .int_node 5 := by
  refine ⟨rfl, rfl, by decide, by decide, by decide⟩

theorem c_isspace_eq_false_of_isdigit {c : Char} (h : c_isdigit c = true) :
    c_isspace c = false := by
  simp only [c_isdigit, Bool.and_eq_true, decide_eq_true_eq] at h
  simp only [c_isspace, Bool.or_eq_false_iff, decide_eq_false_iff_not,
    Bool.and_eq_false_iff]
  omega

/-- Evaluation of strtoll's digit phase on an all-digit nonempty input. -/
theorem strtoll_core_digits (neg : Bool) (d : List Char) (hne : d ≠ [])
    (hall : d.all c_isdigit = true) :
    strtoll_core neg d
      = if (if neg then -(dec_value d : Int) else (dec_value d : Int))
            < LLONG_MIN
          ∨ LLONG_MAX
            < (if neg then -(dec_value d : Int) else (dec_value d : Int))
        then none
        else some (if neg then -(dec_value d : Int) else (dec_value d : Int))
    := by
  have htw : List.takeWhile c_isdigit d = d :=
    List.takeWhile_eq_self_iff.mpr (List.all_eq_true.mp hall)
  have hdw : List.dropWhile c_isdigit d = [] :=
    List.dropWhile_eq_nil_iff.mpr (List.all_eq_true.mp hall)
  simp only [strtoll_core, htw, hdw]
  rw [if_neg hne, if_neg (by simp)]

/-- On a token body of the shape [+|-]digit+, strtoll returns exactly the
decimal value when it lies in the long long range and fails with ERANGE
otherwise. -/
theorem strtoll_model_shaped (text : List Char) (v : Int)
    (hshape : token_decimal_value text = some v) :
    strtoll_model text
      = if v < LLONG_MIN ∨ LLONG_MAX < v then none else some v := by
  cases text with
  | nil => simp [token_decimal_value] at hshape
  | cons c r =>
    by_cases hplus : c = '+'
    · subst hplus
      simp only [token_decimal_value, List.head?_cons, List.tail_cons,
        if_pos rfl] at hshape
      by_cases hcond : r ≠ [] ∧ r.all c_isdigit = true
      · rw [if_pos hcond] at hshape
        obtain ⟨hne, hall⟩ := hcond
        injection hshape with hv
        rw [← hv]
        show strtoll_core false r
          = if (dec_value r : Int) < LLONG_MIN ∨ LLONG_MAX < (dec_value r : Int)
            then none else some (dec_value r : Int)
        rw [strtoll_core_digits false r hne hall]
        simp
      · rw [if_neg hcond] at hshape
        exact absurd hshape (by simp)
    · by_cases hminus : c = '-'
      · subst hminus
        simp only [token_decimal_value, List.head?_cons, List.tail_cons,
          if_neg (by decide : ¬(some '-' = some '+')), if_pos rfl] at hshape
        by_cases hcond : r ≠ [] ∧ r.all c_isdigit = true
        · rw [if_pos hcond] at hshape
          obtain ⟨hne, hall⟩ := hcond
          injection hshape with hv
          rw [← hv]
          show strtoll_core true r
            = if -(dec_value r : Int) < LLONG_MIN
                ∨ LLONG_MAX < -(dec_value r : Int)
              then none else some (-(dec_value r : Int))
          rw [strtoll_core_digits true r hne hall]
          simp
        · rw [if_neg hcond] at hshape
          exact absurd hshape (by simp)
      · simp only [token_decimal_value, List.head?_cons] at hshape
        rw [if_neg (by simpa using hplus), if_neg (by simpa using hminus)]
          at hshape
        by_cases hcond : c :: r ≠ [] ∧ (c :: r).all c_isdigit = true
        · rw [if_pos hcond] at hshape
          obtain ⟨hne, hall⟩ := hcond
          injection hshape with hv
          have hd : c_isdigit c = true := by
            simpa using List.all_eq_true.mp hall c (by simp)
          have hnsp : c_isspace c = false := c_isspace_eq_false_of_isdigit hd
          have hbm : (some c == some '-') = false := by simp [hminus]
          have hbp : (some c == some '+') = false := by simp [hplus]
          have hm : strtoll_model (c :: r) = strtoll_core false (c :: r) := by
            simp only [strtoll_model, List.dropWhile_cons, hnsp,
              Bool.false_eq_true, if_false, List.head?_cons, hbm, hbp,
              Bool.or_self, if_false]
          rw [hm, strtoll_core_digits false (c :: r) (by simp) hall, ← hv]
          simp
        · rw [if_neg hcond] at hshape
          exact absurd hshape (by simp)

/-- C7 amended: numeric conversion examines only a truncated prefix of the
token (31 bytes for INTEGER, 63 for FLOAT).  For an INTEGER token of at
most 31 bytes the claim holds exactly: the parser produces the INT node
with the decimal body's value when that value fits the signed 64-bit
range, and demotes the token to a SYMBOL carrying its text when the body
overflows.  A FLOAT token becomes a FLOAT node carrying the strtold value
exactly when the conversion of its 63-byte prefix succeeds with a finite
value, and is demoted to a SYMBOL carrying its full text otherwise. -/
theorem C7_numeric_token_amended (text : List Char) (v : Int)
    (hshape : token_decimal_value text = some v) (hlen : text.length ≤ 31) :
    (LLONG_MIN ≤ v ∧ v ≤ LLONG_MAX →
      parse_integer_token text = .int_node v)
    ∧ (v < LLONG_MIN ∨ LLONG_MAX < v →
      parse_integer_token text = .sym_node text)
    ∧ (∀ (F : Type) (conv : List Char → Option F) (t2 : List Char) (x : F),
        conv (t2.take 63) = some x →
        parse_float_token conv t2 = .float_node x)
    ∧ (∀ (F : Type) (conv : List Char → Option F) (t2 : List Char),
        conv (t2.take 63) = none →
        parse_float_token conv t2 = .sym_node t2) := by
  have htake : text.take 31 = text := List.take_of_length_le hlen
  have hs := strtoll_model_shaped text v hshape
  refine ⟨?_, ?_, ?_, ?_⟩
  · intro hrange
    have hv : strtoll_model (text.take 31) = some v := by
      rw [htake, hs, if_neg]
      omega
    simp [parse_integer_token, hv]
  · intro hrange
    have hv : strtoll_model (text.take 31) = none := by
      rw [htake, hs, if_pos hrange]
    simp [parse_integer_token, hv]
  · intro F conv t2 x hc
    simp [parse_float_token, hc]
  · intro F conv t2 hc
    simp [parse_float_token, hc]

/-- Witness for C7 amended at concrete inputs: the one-byte token 5 parses
to INT 5; the twenty-nines token (value 10^20 - 1, above LLONG_MAX) is
demoted to a SYMBOL carrying its text. -/
theorem C7_numeric_token_amended_witness :
    parse_integer_token ['5'] = .int_node 5
    ∧ parse_integer_token (List.replicate 20 '9')
        = .sym_node (List.replicate 20 '9') :=
  ⟨(C7_numeric_token_amended ['5'] 5 (by decide) (by decide)).1
      (by decide),
   (C7_numeric_token_amended (List.replicate 20 '9') 99999999999999999999
      (by decide) (by decide)).2.1 (by decide)⟩

/- ================================================================
   Lexer (src/lexer.c lex_tokens lines 20-225)
   ================================================================ -/

/-- IDENTIFIER_CHAR_TABLE (lexer.c lines 12-18). -/
def identifier_char_table (c : Char) : Bool :=
  ['!', '@', '#', '$', '%', '^', '&', '*', '-', '+', '=', '<', '>', '/',
   '?', ':', '.', '_', '\\', '~'].contains c

/-- The identifier continuation test isalnum(c) || IDENTIFIER_CHAR_TABLE[c]
(lexer.c lines 202-203). -/
def ident_cont (c : Char) : Bool := c_isalnum c || identifier_char_table c

/-- The uninterned-symbol continuation test
isalnum(c) || strchr("!@$%^&*-+=<>/?:._~", c) (lexer.c lines 182-183);
strchr also matches the NUL terminator, hence the toNat = 0 clause. -/
def uninterned_cont (c : Char) : Bool :=
  c_isalnum c || (c.toNat = 0 ||
    ['!', '@', '$', '%', '^', '&', '*', '-', '+', '=', '<', '>', '/', '?',
     ':', '.', '_', '~'].contains c)

/-- The string body loop (lexer.c lines 103-108): bytes are consumed until
the matching quote; a backslash with a following byte also consumes that
byte.  Returns the consumed body and, when the closing quote was found,
`some` of the remainder after it; `none` models reaching the end of input
(unterminated string). -/
def str_scan : List Char → List Char × Option (List Char)
  | [] => ([], none)
  | c :: rest =>
    if c = '"' then ([], some rest)
    else if c = '\\' then
      match rest with
      | [] => ([c], none)
      | d :: rest2 => (c :: d :: (str_scan rest2).1, (str_scan rest2).2)
    else (c :: (str_scan rest).1, (str_scan rest).2)

/-- The bytes still owed after the string body: the closing quote and the
remainder when the string closed, nothing when it ran to end of input. -/
def close_mark : Option (List Char) → List Char
  | some r => '"' :: r
  | none => []

theorem str_scan_append (cs : List Char) :
    (str_scan cs).1 ++ close_mark (str_scan cs).2 = cs := by
  match cs with
  | [] => rfl
  | c :: rest =>
    rw [str_scan.eq_def]
    dsimp only
    by_cases h1 : c = '"'
    · simp [h1, close_mark]
    · rw [if_neg h1]
      by_cases h2 : c = '\\'
      · rw [if_pos h2]
        match rest with
        | [] => rfl
        | d :: rest2 =>
          have ih := str_scan_append rest2
          cases hs : (str_scan rest2).2 with
          | none =>
            rw [hs] at ih
            simp only [hs, close_mark] at ih ⊢
            simpa using ih
          | some r =>
            rw [hs] at ih
            simp only [hs, close_mark] at ih ⊢
            simpa using ih
      · rw [if_neg h2]
        have ih := str_scan_append rest
        cases hs : (str_scan rest).2 with
        | none =>
          rw [hs] at ih
          simp only [hs, close_mark] at ih ⊢
          simpa using ih
        | some r =>
          rw [hs] at ih
          simp only [hs, close_mark] at ih ⊢
          simpa using ih

/-- The optional sign step of the numeric scanner (lexer.c lines 136-138,
also lines 155-157 for the exponent sign). -/
def scan_sign (cs : List Char) : List Char × List Char :=
  match cs with
  | c :: rest => if c = '-' ∨ c = '+' then ([c], rest) else ([], c :: rest)
  | [] => ([], [])

theorem scan_sign_append (cs : List Char) :
    (scan_sign cs).1 ++ (scan_sign cs).2 = cs := by
  match cs with
  | [] => rfl
  | c :: rest =>
    simp only [scan_sign]
    split <;> simp

/-- A maximal digit run and what follows it (lexer.c lines 140-141). -/
def scan_digits (cs : List Char) : List Char × List Char :=
  (cs.takeWhile c_isdigit, cs.dropWhile c_isdigit)

theorem scan_digits_append (cs : List Char) :
    (scan_digits cs).1 ++ (scan_digits cs).2 = cs :=
  List.takeWhile_append_dropWhile c_isdigit cs

/-- The optional fraction part (lexer.c lines 143-149): a dot followed by a
maximal digit run; the third component records whether a dot was seen
(is_float). -/
def scan_frac (cs : List Char) : List Char × List Char × Bool :=
  if cs.head? = some '.' then
    ('.' :: (scan_digits cs.tail).1, ((scan_digits cs.tail).2, true))
  else ([], (cs, false))

theorem scan_frac_append (cs : List Char) :
    (scan_frac cs).1 ++ (scan_frac cs).2.1 = cs := by
  by_cases h : cs.head? = some '.'
  · have hc : '.' :: cs.tail = cs := List.cons_head?_tail h
    simp only [scan_frac, if_pos h]
    rw [show ('.' :: (scan_digits cs.tail).1) ++ (scan_digits cs.tail).2
          = '.' :: ((scan_digits cs.tail).1 ++ (scan_digits cs.tail).2)
        from rfl,
      scan_digits_append, hc]
  · simp [scan_frac, if_neg h]

/-- Result of the exponent step (lexer.c lines 151-166). -/
inductive ExpScan where
  | noExp
  | valid (consumed rest : List Char)
  | malformed
  deriving DecidableEq, Repr

/-- The exponent step (lexer.c lines 151-166): e or E, an optional sign,
then a required digit run; a missing digit is the malformed case in which
the C code rewinds ptr to the token start and jumps to the identifier
label. -/
def scan_exp (cs : List Char) : ExpScan :=
  match cs with
  | e :: r =>
    if e = 'e' ∨ e = 'E' then
      let es := (scan_sign r).1
      let r2 := (scan_sign r).2
      match r2 with
      | d :: _ =>
        if c_isdigit d then
          .valid (e :: (es ++ (scan_digits r2).1)) (scan_digits r2).2
        else .malformed
      | [] => .malformed
    else .noExp
  | [] => .noExp

theorem scan_exp_valid_append (cs : List Char) (ec rest : List Char)
    (h : scan_exp cs = .valid ec rest) : ec ++ rest = cs := by
  match cs with
  | [] => exact absurd h (by simp [scan_exp])
  | e :: r =>
    simp only [scan_exp] at h
    by_cases he : e = 'e' ∨ e = 'E'
    · rw [if_pos he] at h
      cases hr2 : (scan_sign r).2 with
      | nil =>
        rw [hr2] at h
        exact absurd h (by simp)
      | cons d t =>
        rw [hr2] at h
        dsimp only [] at h
        by_cases hd : c_isdigit d = true
        · rw [if_pos hd] at h
          injection h with h1 h2
          subst h1
          subst h2
          have hds : (scan_digits (d :: t)).1 ++ (scan_digits (d :: t)).2
              = d :: t := scan_digits_append (d :: t)
          calc (e :: ((scan_sign r).1 ++ (scan_digits (d :: t)).1))
                ++ (scan_digits (d :: t)).2
              = e :: ((scan_sign r).1
                  ++ ((scan_digits (d :: t)).1 ++ (scan_digits (d :: t)).2)) := by
                simp
            _ = e :: ((scan_sign r).1 ++ (d :: t)) := by rw [hds]
            _ = e :: ((scan_sign r).1 ++ (scan_sign r).2) := by rw [hr2]
            _ = e :: r := by rw [scan_sign_append]
        · rw [if_neg hd] at h
          exact absurd h (by simp)
    · rw [if_neg he] at h
      exact absurd h (by simp)

/-- The numeric scanner of lex_tokens (lexer.c lines 130-175): optional
sign, digit run, optional fraction, optional exponent.  Returns
(is_float, consumed span, rest), or `none` when the exponent is malformed
and the scanner rewinds to the token start. -/
def num_scan (cs : List Char) : Option (Bool × List Char × List Char) :=
  let sign := (scan_sign cs).1
  let cs1 := (scan_sign cs).2
  let ip := (scan_digits cs1).1
  let cs2 := (scan_digits cs1).2
  let frac := (scan_frac cs2).1
  let cs3 := (scan_frac cs2).2.1
  let hasDot := (scan_frac cs2).2.2
  match scan_exp cs3 with
  | .malformed => none
  | .noExp => some (hasDot, sign ++ ip ++ frac, cs3)
  | .valid ec rest => some (true, sign ++ ip ++ frac ++ ec, rest)

theorem num_scan_append (cs : List Char) (isf : Bool) (con rest : List Char)
    (h : num_scan cs = some (isf, con, rest)) : con ++ rest = cs := by
  simp only [num_scan] at h
  cases hexp : scan_exp (scan_frac (scan_digits (scan_sign cs).2).2).2.1 with
  | malformed =>
    rw [hexp] at h
    exact absurd h (by simp)
  | noExp =>
    rw [hexp] at h
    simp only [Option.some.injEq, Prod.mk.injEq] at h
    obtain ⟨h1, h2, h3⟩ := h
    subst h2
    subst h3
    calc ((scan_sign cs).1 ++ (scan_digits (scan_sign cs).2).1
          ++ (scan_frac (scan_digits (scan_sign cs).2).2).1)
          ++ (scan_frac (scan_digits (scan_sign cs).2).2).2.1
        = (scan_sign cs).1 ++ ((scan_digits (scan_sign cs).2).1
            ++ ((scan_frac (scan_digits (scan_sign cs).2).2).1
              ++ (scan_frac (scan_digits (scan_sign cs).2).2).2.1)) := by
          simp
      _ = (scan_sign cs).1 ++ ((scan_digits (scan_sign cs).2).1
            ++ (scan_digits (scan_sign cs).2).2) := by
          rw [scan_frac_append]
      _ = (scan_sign cs).1 ++ (scan_sign cs).2 := by rw [scan_digits_append]
      _ = cs := scan_sign_append cs
  | valid ec r2 =>
    rw [hexp] at h
    simp only [Option.some.injEq, Prod.mk.injEq] at h
    obtain ⟨h1, h2, h3⟩ := h
    subst h2
    subst h3
    have hec : ec ++ r2
        = (scan_frac (scan_digits (scan_sign cs).2).2).2.1 :=
      scan_exp_valid_append _ ec r2 hexp
    calc ((scan_sign cs).1 ++ (scan_digits (scan_sign cs).2).1
          ++ (scan_frac (scan_digits (scan_sign cs).2).2).1 ++ ec) ++ r2
        = (scan_sign cs).1 ++ ((scan_digits (scan_sign cs).2).1
            ++ ((scan_frac (scan_digits (scan_sign cs).2).2).1
              ++ (ec ++ r2))) := by simp
      _ = (scan_sign cs).1 ++ ((scan_digits (scan_sign cs).2).1
            ++ ((scan_frac (scan_digits (scan_sign cs).2).2).1
              ++ (scan_frac (scan_digits (scan_sign cs).2).2).2.1)) := by
          rw [hec]
      _ = (scan_sign cs).1 ++ ((scan_digits (scan_sign cs).2).1
            ++ (scan_digits (scan_sign cs).2).2) := by
          rw [scan_frac_append]
      _ = (scan_sign cs).1 ++ (scan_sign cs).2 := by rw [scan_digits_append]
      _ = cs := scan_sign_append cs

/-- The numeric-start test (lexer.c lines 131-132): a digit, or a sign
whose next byte exists and is a digit or a dot. -/
def num_start (c : Char) (rest : List Char) : Bool :=
  c_isdigit c ||
  ((c = '-' || c = '+') &&
    (match rest.head? with
     | some d => c_isdigit d || d = '.'
     | none => false))

/-- The identifier label of lex_tokens (lexer.c lines 197-221): an
alpha/table start consumes the maximal identifier run into an IDENTIFIER
token, any other byte becomes a one-byte ERROR token.  The empty case
models the out-of-bounds read c = *ptr at ptr = end, reachable only
through a dangling "#:" at the very end of the input (undefined behaviour
in C). -/
def ident_step : List Char → List Token × List Char
  | [] => ([⟨.ERROR, 1, none⟩], [])
  | c :: rest =>
    if c_isalpha c || identifier_char_table c then
      ([⟨.IDENTIFIER, ((c :: rest).takeWhile ident_cont).length,
         some ((c :: rest).takeWhile ident_cont)⟩],
       (c :: rest).dropWhile ident_cont)
    else ([⟨.ERROR, 1, some [c]⟩], rest)

/-- One iteration of the scanning loop of lex_tokens (lexer.c lines
29-222) on the nonempty input c :: rest: the branch tests follow the
source order (whitespace 33, lparen 39, rparen 50, comment 61, quote 67,
comma 78, backquote 90, string 102, number 131, uninterned 178,
identifier label 197).  Returns the emitted tokens (none for skipped
bytes) and the remaining input. -/
def lex_step (c : Char) (rest : List Char) : List Token × List Char :=
  if c_isspace c then ([], rest)
  else if c = '(' then ([⟨.LPAREN, 1, some [c]⟩], rest)
  else if c = ')' then ([⟨.RPAREN, 1, some [c]⟩], rest)
  else if c = ';' then ([], rest.dropWhile (fun d => !(d = '\n')))
  else if c = '\'' then ([⟨.QUOTE, 1, some [c]⟩], rest)
  else if c = ',' then ([⟨.COMMA, 1, some [c]⟩], rest)
  else if c = '`' then ([⟨.BACKQUOTE, 1, some [c]⟩], rest)
  else if c = '"' then
    match str_scan rest with
    | (body, some rest3) =>
        ([⟨.STRING, body.length + 2, some (c :: (body ++ ['"']))⟩], rest3)
    | (body, none) =>
        ([⟨.ERROR, body.length + 1, some (c :: body)⟩], [])
  else if num_start c rest then
    match num_scan (c :: rest) with
    | some (isf, con, rest2) =>
        ([⟨if isf then .FLOAT else .INTEGER, con.length, some con⟩], rest2)
    | none => ident_step (c :: rest)
  else if c = '#' ∧ rest.head? = some ':' then
    match rest.tail with
    | d :: _ =>
      if c_isalpha d || identifier_char_table d then
        ([⟨.UNINTERNED_SYMBOL,
           (c :: ':' :: rest.tail.takeWhile uninterned_cont).length,
           some (c :: ':' :: rest.tail.takeWhile uninterned_cont)⟩],
         rest.tail.dropWhile uninterned_cont)
      else ident_step rest.tail
    | [] => ident_step []
  else ident_step (c :: rest)

/-- lex_tokens (lexer.c lines 20-225), with explicit fuel; every loop
iteration consumes at least one byte, so fuel = input length (as used by
lex_tokens below) always suffices. -/
def lex_tokens_fuel : Nat → List Char → List Token
  | 0, _ => []
  | _ + 1, [] => []
  | f + 1, c :: rest =>
    (lex_step c rest).1 ++ lex_tokens_fuel f (lex_step c rest).2

/-- lex_tokens (lexer.c lines 20-225). -/
def lex_tokens (cs : List Char) : List Token := lex_tokens_fuel cs.length cs

/-- The byte span a token carries. -/
def token_span (t : Token) : List Char := t.value.getD []

/-- Concatenation of the byte spans of a token sequence, in order. -/
def token_spans_concat (ts : List Token) : List Char :=
  (ts.map token_span).flatten

theorem str_scan_none_eq (cs : List Char) (h : (str_scan cs).2 = none) :
    (str_scan cs).1 = cs := by
  have ha := str_scan_append cs
  rw [h] at ha
  simpa [close_mark] using ha

theorem str_scan_some_append (cs r : List Char)
    (h : (str_scan cs).2 = some r) :
    (str_scan cs).1 ++ '"' :: r = cs := by
  have ha := str_scan_append cs
  rw [h] at ha
  simpa [close_mark] using ha

theorem num_scan_consumed_ne_nil (c : Char) (rest : List Char)
    (hg : num_start c rest = true) (isf : Bool) (con r2 : List Char)
    (h : num_scan (c :: rest) = some (isf, con, r2)) : con ≠ [] := by
  by_cases hsign : c = '-' ∨ c = '+'
  · have hs1 : (scan_sign (c :: rest)).1 = [c] := by
      simp [scan_sign, hsign]
    simp only [num_scan, hs1] at h
    cases hexp : scan_exp
        (scan_frac (scan_digits (scan_sign (c :: rest)).2).2).2.1 with
    | malformed => rw [hexp] at h; exact absurd h (by simp)
    | noExp =>
      rw [hexp] at h
      simp only [Option.some.injEq, Prod.mk.injEq] at h
      obtain ⟨-, h2, -⟩ := h
      rw [← h2]
      simp
    | valid ec r3 =>
      rw [hexp] at h
      simp only [Option.some.injEq, Prod.mk.injEq] at h
      obtain ⟨-, h2, -⟩ := h
      rw [← h2]
      simp
  · have hd : c_isdigit c = true := by
      have := hg
      simp only [num_start, Bool.or_eq_true, Bool.and_eq_true,
        decide_eq_true_eq] at this
      rcases this with hdig | ⟨hsg, -⟩
      · exact hdig
      · exact absurd (by tauto : c = '-' ∨ c = '+') hsign
    have hs1 : (scan_sign (c :: rest)).1 = [] ∧
        (scan_sign (c :: rest)).2 = c :: rest := by
      constructor <;> simp [scan_sign, hsign]
    have hip : (scan_digits (c :: rest)).1
        = c :: rest.takeWhile c_isdigit := by
      simp [scan_digits, List.takeWhile_cons_of_pos hd]
    simp only [num_scan, hs1.1, hs1.2, hip] at h
    cases hexp : scan_exp
        (scan_frac (scan_digits (c :: rest)).2).2.1 with
    | malformed =>
      rw [hexp] at h
      exact absurd h (by simp)
    | noExp =>
      rw [hexp] at h
      simp only [Option.some.injEq, Prod.mk.injEq] at h
      obtain ⟨-, h2, -⟩ := h
      rw [← h2]
      simp
    | valid ec r3 =>
      rw [hexp] at h
      simp only [Option.some.injEq, Prod.mk.injEq] at h
      obtain ⟨-, h2, -⟩ := h
      rw [← h2]
      simp

theorem ident_cont_of_start {c : Char}
    (h : (c_isalpha c || identifier_char_table c) = true) :
    ident_cont c = true := by
  simp only [ident_cont, c_isalnum, Bool.or_eq_true] at *
  tauto

theorem ident_step_length (cs : List Char) :
    (ident_step cs).2.length ≤ cs.length := by
  match cs with
  | [] => simp [ident_step]
  | c :: rest =>
    simp only [ident_step]
    split
    · exact (List.dropWhile_sublist (p := ident_cont)
        (l := c :: rest)).length_le
    · simp

theorem ident_step_cons_length (c : Char) (rest : List Char) :
    (ident_step (c :: rest)).2.length ≤ rest.length := by
  simp only [ident_step]
  split
  · rename_i hstart
    rw [List.dropWhile_cons_of_pos (ident_cont_of_start hstart)]
    exact (List.dropWhile_sublist (p := ident_cont) (l := rest)).length_le
  · simp

theorem lex_step_length (c : Char) (rest : List Char) :
    (lex_step c rest).2.length ≤ rest.length := by
  rw [lex_step]
  by_cases g1 : c_isspace c = true
  · rw [if_pos g1]
  rw [if_neg g1]
  by_cases g2 : c = '('
  · rw [if_pos g2]
  rw [if_neg g2]
  by_cases g3 : c = ')'
  · rw [if_pos g3]
  rw [if_neg g3]
  by_cases g4 : c = ';'
  · rw [if_pos g4]
    exact (List.dropWhile_sublist _).length_le
  rw [if_neg g4]
  by_cases g5 : c = '\''
  · rw [if_pos g5]
  rw [if_neg g5]
  by_cases g6 : c = ','
  · rw [if_pos g6]
  rw [if_neg g6]
  by_cases g7 : c = '`'
  · rw [if_pos g7]
  rw [if_neg g7]
  by_cases g8 : c = '"'
  · rw [if_pos g8]
    cases hss : str_scan rest with
    | mk body ob =>
      cases ob with
      | some r3 =>
        have happ := str_scan_some_append rest r3 (by rw [hss])
        rw [hss] at happ
        have hlen := congrArg List.length happ
        simp only [List.length_append, List.length_cons] at hlen
        dsimp only
        omega
      | none =>
        dsimp only
        simp
  rw [if_neg g8]
  by_cases g9 : num_start c rest = true
  · rw [if_pos g9]
    cases hns : num_scan (c :: rest) with
    | some t =>
      obtain ⟨isf, con, rest2⟩ := t
      have happ := num_scan_append (c :: rest) isf con rest2 hns
      have hne := num_scan_consumed_ne_nil c rest g9 isf con rest2 hns
      have hlen := congrArg List.length happ
      simp only [List.length_append, List.length_cons] at hlen
      have hpos : 1 ≤ con.length := by
        cases con with
        | nil => exact absurd rfl hne
        | cons x xs => simp
      dsimp only
      omega
    | none =>
      exact ident_step_cons_length c rest
  rw [if_neg g9]
  by_cases g10 : c = '#' ∧ rest.head? = some ':'
  · rw [if_pos g10]
    cases htl : rest.tail with
    | nil =>
      simp [ident_step]
    | cons d t =>
      have htlen : rest.tail.length ≤ rest.length := by
        rw [List.length_tail]
        omega
      rw [htl] at htlen
      dsimp only
      split
      · calc (List.dropWhile uninterned_cont (d :: t)).length
            ≤ (d :: t).length :=
              (List.dropWhile_sublist uninterned_cont).length_le
          _ ≤ rest.length := htlen
      · calc (ident_step (d :: t)).2.length
            ≤ (d :: t).length := ident_step_length (d :: t)
          _ ≤ rest.length := htlen
  rw [if_neg g10]
  exact ident_step_cons_length c rest

theorem ident_step_covers (c : Char) (rest : List Char) :
    token_spans_concat (ident_step (c :: rest)).1 ++ (ident_step (c :: rest)).2
      = c :: rest := by
  simp only [ident_step]
  split
  · simp only [token_spans_concat, token_span, List.map_cons, List.map_nil,
      Option.getD_some, List.flatten_cons, List.flatten_nil, List.append_nil]
    exact List.takeWhile_append_dropWhile ident_cont (c :: rest)
  · simp [token_spans_concat, token_span]

theorem lex_step_covers (c : Char) (rest : List Char)
    (h1 : c_isspace c = false) (h2 : c ≠ ';') (h3 : c ≠ '#') :
    token_spans_concat (lex_step c rest).1 ++ (lex_step c rest).2
      = c :: rest := by
  rw [lex_step]
  rw [if_neg (by rw [h1]; simp : ¬c_isspace c = true)]
  by_cases g2 : c = '('
  · rw [if_pos g2]
    subst g2
    simp [token_spans_concat, token_span]
  rw [if_neg g2]
  by_cases g3 : c = ')'
  · rw [if_pos g3]
    subst g3
    simp [token_spans_concat, token_span]
  rw [if_neg g3]
  rw [if_neg h2]
  by_cases g5 : c = '\''
  · rw [if_pos g5]
    subst g5
    simp [token_spans_concat, token_span]
  rw [if_neg g5]
  by_cases g6 : c = ','
  · rw [if_pos g6]
    subst g6
    simp [token_spans_concat, token_span]
  rw [if_neg g6]
  by_cases g7 : c = '`'
  · rw [if_pos g7]
    subst g7
    simp [token_spans_concat, token_span]
  rw [if_neg g7]
  by_cases g8 : c = '"'
  · rw [if_pos g8]
    subst g8
    cases hss : str_scan rest with
    | mk body ob =>
      cases ob with
      | some r3 =>
        have happ := str_scan_some_append rest r3 (by rw [hss])
        rw [hss] at happ
        dsimp only at happ
        dsimp only
        simp only [token_spans_concat, token_span, List.map_cons,
          List.map_nil, Option.getD_some, List.flatten_cons, List.flatten_nil,
          List.append_nil, List.cons_append]
        rw [List.append_assoc]
        simp only [List.singleton_append]
        rw [happ]
      | none =>
        have hbody := str_scan_none_eq rest (by rw [hss])
        rw [hss] at hbody
        dsimp only at hbody
        dsimp only
        simp only [token_spans_concat, token_span, List.map_cons,
          List.map_nil, Option.getD_some, List.flatten_cons, List.flatten_nil,
          List.append_nil, List.cons_append]
        rw [hbody]
  rw [if_neg g8]
  by_cases g9 : num_start c rest = true
  · rw [if_pos g9]
    cases hns : num_scan (c :: rest) with
    | some t =>
      obtain ⟨isf, con, rest2⟩ := t
      have happ := num_scan_append (c :: rest) isf con rest2 hns
      dsimp only
      simp only [token_spans_concat, token_span, List.map_cons,
        List.map_nil, Option.getD_some, List.flatten_cons, List.flatten_nil,
        List.append_nil]
      exact happ
    | none =>
      exact ident_step_covers c rest
  rw [if_neg g9]
  rw [if_neg (fun hx => h3 hx.1)]
  exact ident_step_covers c rest

/-- One scanning-loop iteration never invents or reorders bytes: the spans
of the emitted tokens followed by the remaining input form a sublist of the
consumed input.  The branches either cover their input exactly
(lex_step_covers) or drop bytes: whitespace (lexer.c line 33), comment
bytes (line 61), and the two introducer bytes of a "#:" whose follower is
not an identifier-start byte or which ends the input (lines 178-196). -/
theorem lex_step_spans_sublist (c : Char) (rest : List Char) :
    List.Sublist (token_spans_concat (lex_step c rest).1
      ++ (lex_step c rest).2) (c :: rest) := by
  by_cases h1 : c_isspace c = true
  · rw [lex_step, if_pos h1]
    simp only [token_spans_concat, List.map_nil, List.flatten_nil,
      List.nil_append]
    exact List.sublist_cons_self c rest
  by_cases h2 : c = ';'
  · subst h2
    rw [lex_step, if_neg h1, if_neg (by decide), if_neg (by decide),
      if_pos rfl]
    simp only [token_spans_concat, List.map_nil, List.flatten_nil,
      List.nil_append]
    exact ((List.dropWhile_sublist _).trans
      (List.sublist_cons_self ';' rest))
  by_cases h3 : c = '#'
  · subst h3
    rw [lex_step, if_neg h1, if_neg (by decide), if_neg (by decide),
      if_neg h2, if_neg (by decide), if_neg (by decide), if_neg (by decide),
      if_neg (by decide), if_neg (by simp [num_start, c_isdigit])]
    by_cases hcolon : rest.head? = some ':'
    · rw [if_pos ⟨rfl, hcolon⟩]
      have hrest : ':' :: rest.tail = rest :=
        List.cons_head?_tail (Option.mem_def.mpr hcolon)
      cases htl : rest.tail with
      | nil =>
        dsimp only
        simp only [ident_step, token_spans_concat, token_span, List.map_cons,
          List.map_nil, Option.getD_none, List.flatten_cons, List.flatten_nil,
          List.append_nil, List.nil_append]
        exact List.nil_sublist _
      | cons d t =>
        dsimp only
        rw [htl] at hrest
        by_cases hd : (c_isalpha d || identifier_char_table d) = true
        · rw [if_pos hd]
          simp only [token_spans_concat, token_span, List.map_cons,
            List.map_nil, Option.getD_some, List.flatten_cons,
            List.flatten_nil, List.append_nil, List.cons_append]
          rw [List.takeWhile_append_dropWhile, hrest]
        · rw [if_neg hd]
          rw [ident_step_covers d t]
          have hdt : List.Sublist (d :: t : List Char) rest := by
            rw [← hrest]
            exact List.sublist_cons_self ':' (d :: t)
          exact hdt.trans (List.sublist_cons_self '#' rest)
    · rw [if_neg (fun hx => hcolon hx.2)]
      rw [ident_step_covers '#' rest]
  have h1' : c_isspace c = false := by
    cases hb : c_isspace c with
    | false => rfl
    | true => exact absurd hb h1
  rw [lex_step_covers c rest h1' h2 h3]

/-- Over the whole scanning loop, the span concatenation is a sublist of
the lexed text. -/
theorem lex_tokens_fuel_spans_sublist (f : Nat) : ∀ (cs : List Char),
    List.Sublist (token_spans_concat (lex_tokens_fuel f cs)) cs := by
  induction f with
  | zero =>
    intro cs
    cases cs with
    | nil => exact List.nil_sublist _
    | cons c rest => exact List.nil_sublist _
  | succ f ih =>
    intro cs
    cases cs with
    | nil => exact List.nil_sublist _
    | cons c rest =>
      have hstep := lex_step_spans_sublist c rest
      have hrec := ih (lex_step c rest).2
      show List.Sublist (token_spans_concat
          ((lex_step c rest).1 ++ lex_tokens_fuel f (lex_step c rest).2))
        (c :: rest)
      rw [token_spans_concat, List.map_append, List.flatten_append]
      exact (List.Sublist.append_left hrec _).trans hstep

theorem lex_tokens_fuel_roundtrip (f : Nat) : ∀ (cs : List Char),
    cs.length ≤ f →
    (∀ c ∈ cs, c_isspace c = false ∧ c ≠ ';' ∧ c ≠ '#') →
    token_spans_concat (lex_tokens_fuel f cs) = cs := by
  induction f with
  | zero =>
    intro cs hf h
    match cs, hf with
    | [], _ => rfl
  | succ f ih =>
    intro cs hf h
    match cs with
    | [] => rfl
    | c :: rest =>
      obtain ⟨h1, h2, h3⟩ := h c (by simp)
      have hcov := lex_step_covers c rest h1 h2 h3
      have hlen := lex_step_length c rest
      have hsuf : (lex_step c rest).2 <:+ c :: rest :=
        ⟨token_spans_concat (lex_step c rest).1, hcov⟩
      have hmem : ∀ d ∈ (lex_step c rest).2,
          c_isspace d = false ∧ d ≠ ';' ∧ d ≠ '#' :=
        fun d hd => h d (hsuf.sublist.subset hd)
      have hfl : (lex_step c rest).2.length ≤ f := by
        simp only [List.length_cons] at hf
        omega
      have hrec := ih (lex_step c rest).2 hfl hmem
      show token_spans_concat
          ((lex_step c rest).1 ++ lex_tokens_fuel f (lex_step c rest).2)
        = c :: rest
      rw [token_spans_concat, List.map_append, List.flatten_append]
      rw [show ((lex_tokens_fuel f (lex_step c rest).2).map token_span).flatten
            = token_spans_concat (lex_tokens_fuel f (lex_step c rest).2)
          from rfl,
        hrec]
      exact hcov

/-- C6 counterexample: lexing the three-byte program text 1-space-2 yields
the two INTEGER tokens 1 and 2; concatenating the token spans in order
gives the two bytes 12, not the original three-byte text — the whitespace
byte belongs to no token span. -/
theorem C6_whitespace_counterexample :
    token_spans_concat (lex_tokens ['1', ' ', '2']) = ['1', '2']
    ∧ ['1', '2'] ≠ ['1', ' ', '2'] := by
  refine ⟨rfl, by decide⟩

/-- C6 amended: concatenating the token spans in order always yields a
subsequence of the program text — the lexer drops bytes but never invents
or reorders them — and yields the text verbatim for every program text
that contains no whitespace byte, no semicolon and no hash byte.  (The
dropping branches are whitespace, lexer.c line 33; comment bytes, line 61;
and the two introducer bytes of a "#:" whose follower does not start an
identifier, such as "#:1", or which ends the input, lines 178-196.) -/
theorem C6_lex_roundtrip_amended (cs : List Char) :
    List.Sublist (token_spans_concat (lex_tokens cs)) cs
    ∧ ((∀ c ∈ cs, c_isspace c = false ∧ c ≠ ';' ∧ c ≠ '#') →
        token_spans_concat (lex_tokens cs) = cs) :=
  ⟨lex_tokens_fuel_spans_sublist cs.length cs,
   fun h => lex_tokens_fuel_roundtrip cs.length cs (le_refl _) h⟩

/-- Witness for C6 amended at concrete inputs: on the text 1-space-2 the
span concatenation is a subsequence of the text, and the text (a)
round-trips through the lexer verbatim. -/
theorem C6_lex_roundtrip_amended_witness :
    List.Sublist (token_spans_concat (lex_tokens ['1', ' ', '2']))
      ['1', ' ', '2']
    ∧ token_spans_concat (lex_tokens ['(', 'a', ')']) = ['(', 'a', ')'] :=
  ⟨(C6_lex_roundtrip_amended ['1', ' ', '2']).1,
   (C6_lex_roundtrip_amended ['(', 'a', ')']).2 (by decide)⟩

end Wisp
